import Mathlib

/-!
# Verification of the leia-runner orchestration core

Shallow embedding of the leia-runner agent-orchestration code and proofs about
it.  The embedded sources are:

* `src/models/providers/wizard.js` — the wizard tool-calling loop
  (`createSession`, `sendMessageStream`, `updateSessionState`);
* `src/services/wizardFunctions.js` — the tool handlers (modelled at the level
  of the result objects they construct; the external OpenAI/catalog payloads
  are supplied by an environment);
* `src/routes/leiasRoutes.js` — the `ModelManager` registry
  (`getModel`, `testModel`, the async `registerModel`) and the wizard HTTP
  handlers (their Redis writes);
* `src/services/cacheService.js` — `parseTimeFrame`, `parseSpecificDate`,
  the key filters and `purgeCache`;
* `SessionService.createSession` (session hash writes).

JavaScript dynamic values are modelled by the `JVal` type; machine numbers are
modelled as unbounded `Int` (all numbers involved are far below 2^53, where JS
number arithmetic is exact).  Asynchronous external calls (OpenAI, axios,
Redis) are modelled as explicit outcome parameters: the embedding is faithful
to the code that surrounds them.
-/

set_option linter.unusedVariables false
set_option linter.unnecessarySeqFocus false
set_option maxRecDepth 16384

namespace LeiaRunner

/-! ## JavaScript value model -/

/-- JavaScript runtime values as used by the wizard conversation state,
tool-call arguments and tool results. -/
inductive JVal where
  | null
  | undefined
  | bool (b : Bool)
  | num (n : Int)
  | str (s : String)
  | arr (elems : List JVal)
  | obj (fields : List (String × JVal))

/-- JS object/map assignment: replace the binding in place if the key exists
(preserving insertion order), otherwise append it — the semantics of both
`obj[k] = v` and `Map.prototype.set`. -/
def setKV {α : Type} : List (String × α) → String → α → List (String × α)
  | [], k, v => [(k, v)]
  | (k', v') :: rest, k, v =>
    if k' = k then (k, v) :: rest else (k', v') :: setKV rest k v

/-- JS property read `v[k]`: `undefined` for a missing field or a non-object
receiver (property access on primitives is not exercised by the embedded
code). -/
def JVal.get : JVal → String → JVal
  | .obj fields, k =>
    match fields.lookup k with
    | some v => v
    | none => .undefined
  | _, _ => .undefined

/-- JS truthiness (`NaN` does not arise in the embedded code). -/
def JVal.truthy : JVal → Bool
  | .null => false
  | .undefined => false
  | .bool b => b
  | .num n => n != 0
  | .str s => s != ""
  | .arr _ => true
  | .obj _ => true

/-- JS string coercion of a value used as a property key
(`sessionData[componentType]`). -/
def JVal.asKey : JVal → String
  | .str s => s
  | .null => "null"
  | .undefined => "undefined"
  | .bool b => if b then "true" else "false"
  | .num n => toString n
  | .arr _ => ""
  | .obj _ => "[object Object]"

/-! ## Wizard conversation state

`src/models/providers/wizard.js`.  A wizard session object has the fields
created by `createSession`; `updateSessionState` can in principle assign to an
arbitrary property name (`sessionData[componentType] = ...`), so the record
also carries the bag of any other properties ever assigned. -/

structure Conversation where
  messages : JVal
  persona : JVal
  problem : JVal
  behaviour : JVal
  completed : JVal
  userToken : JVal
  extra : List (String × JVal) := []

/-- JS dynamic property assignment `sessionData[k] = v` on a wizard session
object. -/
def Conversation.setField (c : Conversation) (k : String) (v : JVal) : Conversation :=
  if k = "messages" then { c with messages := v }
  else if k = "persona" then { c with persona := v }
  else if k = "problem" then { c with problem := v }
  else if k = "behaviour" then { c with behaviour := v }
  else if k = "completed" then { c with completed := v }
  else if k = "userToken" then { c with userToken := v }
  else { c with extra := setKV c.extra k v }

/-- `sessionData.messages.push(m)`.  In every reachable state `messages` is an
array; on a non-array JS would throw, which the embedding renders as a no-op
(the branch is dead in all theorems below). -/
def Conversation.pushMsg (c : Conversation) (m : JVal) : Conversation :=
  match c.messages with
  | .arr xs => { c with messages := .arr (xs ++ [m]) }
  | _ => c

def systemMsg (content : String) : JVal :=
  .obj [("role", .str "system"), ("content", .str content)]

def userMsg (content : String) : JVal :=
  .obj [("role", .str "user"), ("content", .str content)]

/-- One tool invocation requested by the provider.  `args` is the result of
`JSON.parse(toolCall.function.arguments)` (the embedding works with the parsed
value). -/
structure ToolCall where
  id : String
  name : String
  args : JVal

def encodeToolCall (tc : ToolCall) : JVal :=
  .obj [("id", .str tc.id),
        ("type", .str "function"),
        ("function", .obj [("name", .str tc.name), ("arguments", tc.args)])]

/-- The raw `responseMessage` pushed onto the history. -/
def assistantMsg (content : JVal) (toolCalls : List ToolCall) : JVal :=
  .obj [("role", .str "assistant"), ("content", content),
        ("tool_calls", .arr (toolCalls.map encodeToolCall))]

/-- The tool-role history entry.  `content` is `JSON.stringify(result)` in the
source; the embedding stores the result value itself (stringification is an
injective encoding that no embedded code inspects). -/
def toolMsg (id : String) (result : JVal) : JVal :=
  .obj [("role", .str "tool"), ("tool_call_id", .str id), ("content", result)]

/-- Placeholder for the wizard system-prompt text (prompt wording is out of
scope; no embedded control flow inspects it). -/
def WIZARD_SYSTEM_PROMPT : String := "wizard system prompt"

/-- `WizardProvider.createSession` (`wizard.js`). -/
def createSession (instructions : String) (userToken : JVal) : Conversation :=
  { messages := .arr [systemMsg WIZARD_SYSTEM_PROMPT, userMsg instructions]
    persona := .null
    problem := .null
    behaviour := .null
    completed := .bool false
    userToken := if userToken.truthy then userToken else .null }

/-! ## Tool handlers (`src/services/wizardFunctions.js`)

Each handler wraps an external call (OpenAI or the catalog API) in
`try`/`catch` and returns an object literal.  The external outcome — a thrown
error or the parsed payload — is environment data; the object literals around
it are taken from the source. -/

/-- Outcome of the external call made inside a handler. -/
inductive HandlerOutcome where
  | extThrow (msg : String)
  | extValue (v : JVal)

/-- The `catch` branch shared by every handler:
`{ success: false, error: error.message }`. -/
def jsFail (msg : String) : JVal :=
  .obj [("success", .bool false), ("error", .str msg)]

def spreadFields : JVal → List (String × JVal)
  | .obj fields => fields
  | _ => []

/-- Object-literal spread `{ ...base, ...v }` (later keys override). -/
def spreadObj (base : List (String × JVal)) (v : JVal) : JVal :=
  .obj ((spreadFields v).foldl (fun acc kv => setKV acc kv.1 kv.2) base)

/-- The keys of `FUNCTION_HANDLERS` in `wizard.js`. -/
def knownFunctions : List String :=
  ["analyze_requirements", "search_existing_personas", "search_existing_problems",
   "search_existing_behaviours", "search_existing_leias", "load_leia_by_id",
   "clone_and_modify_leia", "evaluate_component_match", "generate_persona",
   "generate_problem", "generate_behaviour", "validate_leia_spec",
   "refine_component"]

/-- The result object a handler returns, per handler, as constructed by
`wizardFunctions.js`.  `refineComponent` validates `componentType` in a
`switch` and throws on an unknown type before any external call; the thrown
error is caught by its own `catch`.  Its success result is
`{ success, componentType, component }` — it has no `refined` field. -/
def runHandler (name : String) (args : JVal) (o : HandlerOutcome) : JVal :=
  if name = "refine_component" then
    match args.get "componentType" with
    | .str ct =>
      if ct = "persona" ∨ ct = "problem" ∨ ct = "behaviour" then
        match o with
        | .extThrow e => jsFail e
        | .extValue v =>
          .obj [("success", .bool true), ("componentType", .str ct), ("component", v)]
      else jsFail ("Unknown component type: " ++ ct)
    | other => jsFail ("Unknown component type: " ++ other.asKey)
  else
    match o with
    | .extThrow e => jsFail e
    | .extValue v =>
      if name = "analyze_requirements" then
        .obj [("success", .bool true), ("requirements", v)]
      else if name = "search_existing_personas" then
        .obj [("success", .bool true), ("count", v.get "count"), ("personas", v.get "personas")]
      else if name = "search_existing_problems" then
        .obj [("success", .bool true), ("count", v.get "count"), ("problems", v.get "problems")]
      else if name = "search_existing_behaviours" then
        .obj [("success", .bool true), ("count", v.get "count"), ("behaviours", v.get "behaviours")]
      else if name = "search_existing_leias" then
        .obj [("success", .bool true), ("count", v.get "count"), ("leias", v.get "leias")]
      else if name = "load_leia_by_id" then
        .obj [("success", .bool true), ("leia", v)]
      else if name = "clone_and_modify_leia" then
        .obj [("success", .bool true), ("persona", v.get "persona"),
              ("problem", v.get "problem"), ("behaviour", v.get "behaviour")]
      else if name = "evaluate_component_match" then
        spreadObj [("success", .bool true), ("componentId", args.get "componentId")] v
      else if name = "generate_persona" then
        .obj [("success", .bool true), ("persona", v)]
      else if name = "generate_problem" then
        .obj [("success", .bool true), ("problem", v)]
      else if name = "generate_behaviour" then
        .obj [("success", .bool true), ("behaviour", v)]
      else if name = "validate_leia_spec" then
        spreadObj [("success", .bool true)] v
      else
        jsFail "unknown handler"

/-- `WizardProvider.updateSessionState` (`wizard.js`), rendered with the
`switch` as an `if` chain. -/
def updateSessionState (c : Conversation) (functionName : String) (result : JVal) :
    Conversation :=
  if ¬ (result.get "success").truthy then c
  else if functionName = "generate_persona" then
    if (result.get "persona").truthy then { c with persona := result.get "persona" } else c
  else if functionName = "generate_problem" then
    if (result.get "problem").truthy then { c with problem := result.get "problem" } else c
  else if functionName = "generate_behaviour" then
    if (result.get "behaviour").truthy then { c with behaviour := result.get "behaviour" } else c
  else if functionName = "refine_component" then
    if (result.get "refined").truthy then
      c.setField ((result.get "componentType").asKey) (result.get "refined")
    else c
  else c

/-! ## The wizard loop (`WizardProvider.sendMessageStream`) -/

/-- Events yielded by `sendMessageStream` (the presentational
`functionTitle`/`functionDescription` strings are omitted). -/
inductive WEvent where
  | thinking
  | functionCallStart (functionName : String) (args : JVal)
  | functionCallComplete (functionName : String) (result : JVal)
  | message (content : JVal)
  | complete (persona problem behaviour : JVal)
  | error (msg : String)

/-- The `for (const toolCall of responseMessage.tool_calls)` body: emit the
start event, skip unknown function names, run the handler, emit the completion
event, append the tool-role entry, update the session state. -/
def processCalls : Conversation → List (ToolCall × HandlerOutcome) →
    Conversation × List WEvent
  | c, [] => (c, [])
  | c, (tc, o) :: rest =>
    if tc.name ∈ knownFunctions then
      let result := runHandler tc.name tc.args o
      let c1 := c.pushMsg (toolMsg tc.id result)
      let c2 := updateSessionState c1 tc.name result
      let r := processCalls c2 rest
      (r.1, .functionCallStart tc.name tc.args :: .functionCallComplete tc.name result :: r.2)
    else
      let r := processCalls c rest
      (r.1, .functionCallStart tc.name tc.args :: r.2)

/-- One provider round-trip as seen by the loop: the `responseMessage` content
and tool-call list; each requested call is paired with the outcome of its
handler run (environment data). -/
structure ProvResp where
  content : JVal
  toolCalls : List (ToolCall × HandlerOutcome)

structure LoopOut where
  conv : Conversation
  events : List WEvent
  iters : Nat

def maxIterations : Nat := 15

/-- The `while (continueProcessing && iterationCount < maxIterations)` loop.
`fuel` is the number of iterations the guard still allows (`maxIterations -
iterationCount`); `i` is the current `iterationCount`, also used to index the
environment's provider responses.  Returns the final state, the yielded
events, and the final `iterationCount`. -/
def runLoop (env : Nat → ProvResp) : Nat → Conversation → Nat → LoopOut
  | 0, c, i => ⟨c, [], i⟩
  | fuel + 1, c, i =>
    let resp := env i
    let c0 := c.pushMsg (assistantMsg resp.content (resp.toolCalls.map Prod.fst))
    match resp.toolCalls with
    | [] =>
      if c0.persona.truthy && c0.problem.truthy && c0.behaviour.truthy then
        ⟨{ c0 with completed := .bool true },
         [.thinking, .message resp.content,
          .complete c0.persona c0.problem c0.behaviour], i + 1⟩
      else
        ⟨c0, [.thinking, .message resp.content], i + 1⟩
    | _ :: _ =>
      let pr := processCalls c0 resp.toolCalls
      let r := runLoop env fuel pr.1 (i + 1)
      ⟨r.conv, .thinking :: pr.2 ++ r.events, r.iters⟩

def iterationErrorMsg : String :=
  "Process took too many steps. Please try refining your request."

/-- The `if (iterationCount >= maxIterations)` check after the loop: append
the retry-advisory error event. -/
def finishTurn (r : LoopOut) : LoopOut :=
  if maxIterations ≤ r.iters then
    { r with events := r.events ++ [.error iterationErrorMsg] }
  else r

/-- `WizardProvider.sendMessageStream`: optionally push the new user message
(JS skips a falsy — empty — string), run the loop, and append the
iteration-ceiling error event when `iterationCount >= maxIterations`. -/
def sendMessageStream (env : Nat → ProvResp) (message : Option String)
    (sessionData : Conversation) : LoopOut :=
  let c0 := match message with
    | some m => if m = "" then sessionData else sessionData.pushMsg (userMsg m)
    | none => sessionData
  finishTurn (runLoop env maxIterations c0 0)

/-! ## ModelManager (`src/routes/leiasRoutes.js`, class `ModelManager`)

The class body in the source contains two merged method sets; the embedding
follows the full implementation: `testModel` (lines 549-590), `getModel`
(592-610) and the async `registerModel(modelName, modelCode)` (612-644).
JS `Set` membership is rendered with `∈` on an insertion-ordered,
duplicate-free list; `Map.get`/`Map.set` with association-list lookup and
`setKV`. -/

/-- Outcome of an awaited JS call that can throw. -/
inductive CallOutcome (α : Type) where
  | throws (msg : String)
  | returns (a : α)

/-- The surface of a provider module exercised by `ModelManager.testModel`:
whether `sendMessage`/`createSession` exist as functions, and the outcomes of
the two smoke-test calls (`createSession` with fixed instructions, then
`sendMessage`, whose response must be truthy with a truthy `message`). -/
structure ProviderModule where
  hasSendMessage : Bool
  hasCreateSession : Bool
  createSessionOutcome : CallOutcome JVal
  sendMessageOutcome : CallOutcome JVal

structure TestResult where
  success : Bool
  errors : List String

/-- `ModelManager.testModel`. -/
def testModel (m : ProviderModule) : TestResult :=
  let r0 : TestResult := { success := true, errors := [] }
  let r1 := if ¬ m.hasSendMessage then
      { success := false,
        errors := r0.errors ++ ["El modelo no implementa el metodo sendMessage"] }
    else r0
  let r2 := if ¬ m.hasCreateSession then
      { success := false,
        errors := r1.errors ++ ["El modelo no implementa el metodo createSession"] }
    else r1
  if r2.success then
    match m.createSessionOutcome with
    | .throws e => { success := false, errors := r2.errors ++ ["Error en el test: " ++ e] }
    | .returns _ =>
      match m.sendMessageOutcome with
      | .throws e => { success := false, errors := r2.errors ++ ["Error en el test: " ++ e] }
      | .returns response =>
        if ¬ (response.truthy && (response.get "message").truthy) then
          { success := false,
            errors := r2.errors ++ ["El modelo no devolvio una respuesta valida"] }
        else r2
  else r2

/-- The mutable fields of the `ModelManager` singleton used by
`getModel`/`registerModel`, plus the `validated_models` Redis hash. -/
structure MMState where
  models : List (String × ProviderModule)
  validatedModels : List String
  defaultModel : String
  redisValidated : List (String × String)

def notFoundError (name : String) : String :=
  "Modelo " ++ name ++ " no encontrado o no validado"

/-- `ModelManager.getModel`.  `Except.ok` carries `Map.get`'s result, which is
`undefined` (`none`) when the name is validated but absent from the map; the
`error` case is the thrown not-found `Error`.  When the requested name is the
sentinel and neither default branch fires, control falls through to the
generic validated-name check, exactly as in the source. -/
def getModel (s : MMState) (name : String) : Except String (Option ProviderModule) :=
  if name = "default" then
    if s.defaultModel ∈ s.validatedModels then
      .ok (s.models.lookup s.defaultModel)
    else
      match s.validatedModels with
      | first :: _ => .ok (s.models.lookup first)
      | [] =>
        if name ∈ s.validatedModels then .ok (s.models.lookup name)
        else .error (notFoundError name)
  else
    if name ∈ s.validatedModels then .ok (s.models.lookup name)
    else .error (notFoundError name)

/-- JS `Set.prototype.add`: append if absent, keep insertion order. -/
def setAdd (s : List String) (x : String) : List String :=
  if x ∈ s then s else s ++ [x]

structure RegResult where
  success : Bool
  errors : List String

/-- Outcome of `fs.writeFile` + `require(modelPath)` for the submitted model
code: a throw (caught by the outer `catch`) or the loaded module. -/
inductive LoadOutcome where
  | throws (msg : String)
  | loaded (m : ProviderModule)

/-- The async `ModelManager.registerModel(modelName, modelCode)`: hot-load the
module, run `testModel`, and only on success admit the provider to `models`
and `validatedModels` (mirrored to the `validated_models` Redis hash);
on test failure only the Redis flag is set to `"false"`; a load throw leaves
all state unchanged.  (`notifyModelChanges` only re-publishes the model list
and is not part of this state.) -/
def registerModel (s : MMState) (modelName : String) :
    LoadOutcome → MMState × RegResult
  | .throws e => (s, { success := false, errors := [e] })
  | .loaded m =>
    let tr := testModel m
    if tr.success then
      ({ s with models := setKV s.models modelName m,
                validatedModels := setAdd s.validatedModels modelName,
                redisValidated := setKV s.redisValidated modelName "true" },
       { success := true, errors := [] })
    else
      ({ s with redisValidated := setKV s.redisValidated modelName "false" },
       { success := false, errors := tr.errors })

/-! ## CacheService (`src/services/cacheService.js`) -/

def sessionPrefix : String := "session:"
def leiaMetaPrefix : String := "leia:meta:"
def modelsPrefix : String := "models:"
def validatedModelsKey : String := "validated_models"

/-- The Redis state visible to the purge filters: all keys in scan order and
the hash contents behind each hash key.  (Infrastructure errors of
`hGet`/`hGetAll` are not modelled; reads are total.) -/
structure Store where
  keys : List String
  hashes : List (String × List (String × String))

/-- `redisClient.hGet` (`null` for a missing key or field). -/
def hGet (st : Store) (key field : String) : Option String :=
  match st.hashes.lookup key with
  | some fields => fields.lookup field
  | none => none

/-- `redisClient.hGetAll` (empty object for a missing key). -/
def hGetAll (st : Store) (key : String) : List (String × String) :=
  (st.hashes.lookup key).getD []

/-- Kernel-computable `String.startsWith` (the builtin does not reduce). -/
def strStartsWith (s pre : String) : Bool :=
  pre.data.isPrefixOf s.data

/-- Kernel-computable prefix removal, modelling `key.replace(prefix, "")` for
keys that carry the prefix. -/
def strDrop (s : String) (n : Nat) : String :=
  String.mk (s.data.drop n)

def digitsVal (s : String) : Nat :=
  s.data.foldl (fun acc c => acc * 10 + (c.toNat - 48)) 0

/-- JS `parseInt` on the strings the cache code reads back: optional leading
minus sign, then the longest digit prefix; `none` is `NaN`. -/
def parseIntJS (s : String) : Option Int :=
  match s.data with
  | '-' :: rest =>
    let ds := rest.takeWhile Char.isDigit
    if ds.isEmpty then none else some (-(digitsVal (String.mk ds) : Int))
  | cs =>
    let ds := cs.takeWhile Char.isDigit
    if ds.isEmpty then none else some ((digitsVal (String.mk ds) : Int))

/-- The per-key decision inside `filterKeysByTime`'s loop: a `session:` key is
kept only when its `createdAt` hash field is present, truthy as a string,
parses to a truthy (non-zero, non-NaN) number, and is at most the cutoff;
every other key is kept unconditionally. -/
def timeKeep (st : Store) (ct : Int) (k : String) : Bool :=
  if strStartsWith k sessionPrefix then
    match hGet st k "createdAt" with
    | some sdata =>
      if sdata = "" then false
      else
        match parseIntJS sdata with
        | some createdAt => createdAt != 0 && decide (createdAt ≤ ct)
        | none => false
    | none => false
  else true

/-- `CacheService.filterKeysByTime`. -/
def filterKeysByTime (st : Store) (keys : List String) (cutoffTime : Option Int) :
    List String :=
  match cutoffTime with
  | none => keys
  | some ct => keys.filter (timeKeep st ct)

/-- `CacheService.filterKeysBySession`. -/
def filterKeysBySession (keys : List String) (sessionId : String) : List String :=
  keys.filter fun k =>
    k == sessionPrefix ++ sessionId || k == leiaMetaPrefix ++ sessionId

/-- The loop body of `filterKeysByModel`: `allKeys` is the unfiltered input
list consulted by `keys.includes(metaKey)`. -/
def filterKeysByModelGo (st : Store) (allKeys : List String) (modelName : String) :
    List String → List String
  | [] => []
  | k :: ks =>
    if strStartsWith k sessionPrefix then
      if hGet st k "modelName" = some modelName then
        let metaKey := leiaMetaPrefix ++ strDrop k sessionPrefix.data.length
        if metaKey ∈ allKeys then
          k :: metaKey :: filterKeysByModelGo st allKeys modelName ks
        else k :: filterKeysByModelGo st allKeys modelName ks
      else filterKeysByModelGo st allKeys modelName ks
    else if strStartsWith k modelsPrefix then
      k :: filterKeysByModelGo st allKeys modelName ks
    else filterKeysByModelGo st allKeys modelName ks

/-- `CacheService.filterKeysByModel`. -/
def filterKeysByModel (st : Store) (keys : List String) (modelName : String) :
    List String :=
  filterKeysByModelGo st keys modelName keys

/-- All filter fields must match the stored metadata hash
(`storedMetadata[field] === String(value)`; values are modelled
post-stringification). -/
def metadataMatches (stored : List (String × String)) (metadata : List (String × String)) :
    Bool :=
  metadata.all fun kv => stored.lookup kv.1 == some kv.2

/-- The loop body of `filterKeysByMetadata`. -/
def filterKeysByMetadataGo (st : Store) (allKeys : List String)
    (metadata : List (String × String)) : List String → List String
  | [] => []
  | k :: ks =>
    if strStartsWith k leiaMetaPrefix then
      if metadataMatches (hGetAll st k) metadata then
        let sessionKey := sessionPrefix ++ strDrop k leiaMetaPrefix.data.length
        if sessionKey ∈ allKeys then
          k :: sessionKey :: filterKeysByMetadataGo st allKeys metadata ks
        else k :: filterKeysByMetadataGo st allKeys metadata ks
      else filterKeysByMetadataGo st allKeys metadata ks
    else filterKeysByMetadataGo st allKeys metadata ks

/-- `CacheService.filterKeysByMetadata`. -/
def filterKeysByMetadata (st : Store) (keys : List String)
    (metadata : List (String × String)) : List String :=
  filterKeysByMetadataGo st keys metadata keys

/-- The `^(\d+)([hdwm])$` match of `parseTimeFrame`: the parsed amount and the
unit character, or `none` when the string does not match. -/
def timeFrameMatch (s : String) : Option (Nat × Char) :=
  match s.data.getLast? with
  | none => none
  | some u =>
    let ds := s.data.dropLast
    if (u = 'h' ∨ u = 'd' ∨ u = 'w' ∨ u = 'm') ∧ ds ≠ [] ∧ ds.all Char.isDigit = true then
      some (digitsVal (String.mk ds), u)
    else none

def unitMultiplier (u : Char) : Int :=
  if u = 'h' then 60 * 60 * 1000
  else if u = 'd' then 24 * 60 * 60 * 1000
  else if u = 'w' then 7 * 24 * 60 * 60 * 1000
  else 30 * 24 * 60 * 60 * 1000

/-- `CacheService.parseTimeFrame`: `null` (`none`) for a falsy string or the
literal `all`; the parsed relative window in milliseconds on a grammar match;
a thrown `Error` otherwise. -/
def parseTimeFrame (timeFrame : String) : Except String (Option Int) :=
  if timeFrame = "" ∨ timeFrame = "all" then .ok none
  else
    match timeFrameMatch timeFrame with
    | none =>
      .error "Formato de tiempo invalido. Use: Xh (horas), Xd (dias), Xw (semanas), Xm (meses), o all"
    | some (value, unit) => .ok (some ((value : Int) * unitMultiplier unit))

def msThreshold : Int := 10000000000

/-- `CacheService.parseSpecificDate`.  `isoParse` abstracts
`new Date(specificDate).getTime()` for non-numeric strings (`none` = `NaN`).
An all-digit string is a Unix timestamp, multiplied by 1000 exactly when it is
numerically below `msThreshold`. -/
def parseSpecificDate (isoParse : String → Option Int) (specificDate : String) :
    Except String Int :=
  if specificDate = "" then .error "Fecha especifica requerida"
  else if specificDate.data.all Char.isDigit then
    let timestamp : Int := digitsVal specificDate
    if timestamp < msThreshold then .ok (timestamp * 1000) else .ok timestamp
  else
    match isoParse specificDate with
    | some t => .ok t
    | none => .error "Formato de fecha invalido. Use formato ISO (YYYY-MM-DD) o timestamp"

/-- Query options of `purgeCache` after HTTP parsing.  `none` is an absent
parameter; JS truthiness (empty string falsy) is applied where the source
tests the raw value. -/
structure PurgeOpts where
  timeFrame : Option String := none
  specificDate : Option String := none
  sessionId : Option String := none
  modelName : Option String := none
  metadata : Option (List (String × String)) := none

def optTruthy : Option String → Bool
  | some s => s != ""
  | none => false

/-- The cutoff computation at the top of `purgeCache` (`specificDate` wins;
`timeFrame` defaults to `'all'` via destructuring; a zero or null window means
no cutoff, from `timeFrameMs ? Date.now() - timeFrameMs : null`). -/
def computeCutoff (isoParse : String → Option Int) (now : Int) (o : PurgeOpts) :
    Except String (Option Int) :=
  if optTruthy o.specificDate then
    match parseSpecificDate isoParse (o.specificDate.getD "") with
    | .error e => .error e
    | .ok t => .ok (some t)
  else
    let tf := o.timeFrame.getD "all"
    if tf ≠ "all" then
      match parseTimeFrame tf with
      | .error e => .error e
      | .ok none => .ok none
      | .ok (some ms) => .ok (if ms ≠ 0 then some (now - ms) else none)
    else .ok none

/-- The four `scanIterator` pattern enumerations of `purgeCache`,
concatenated. -/
def allKeysOf (st : Store) : List String :=
  st.keys.filter (fun k => strStartsWith k sessionPrefix) ++
  st.keys.filter (fun k => strStartsWith k leiaMetaPrefix) ++
  st.keys.filter (fun k => strStartsWith k modelsPrefix) ++
  st.keys.filter (fun k => k == validatedModelsKey)

/-- The filter pipeline of `purgeCache`: time, then session id, then model
name, then metadata, each applied only when its option is (truthily)
present. -/
def purgeSelect (st : Store) (o : PurgeOpts) (cutoff : Option Int)
    (allKeys : List String) : List String :=
  let k1 := if cutoff.isSome then filterKeysByTime st allKeys cutoff else allKeys
  let k2 := if optTruthy o.sessionId then filterKeysBySession k1 (o.sessionId.getD "")
            else k1
  let k3 := if optTruthy o.modelName then filterKeysByModel st k2 (o.modelName.getD "")
            else k2
  match o.metadata with
  | some md => if 0 < md.length then filterKeysByMetadata st k3 md else k3
  | none => k3

/-- The body of the deletion loop of `purgeCache`, with an explicit fuel so
that the recursion is structural: each unit of fuel allows one more batch, and
the zero-fuel branch on a non-empty list is unreachable whenever the fuel is
at least the number of keys (each batch consumes at least one key). -/
def delBatchesGo (del : List String → CallOutcome Int) :
    Nat → List String → CallOutcome Int
  | _, [] => .returns 0
  | 0, _ :: _ => .returns 0
  | fuel + 1, k :: ks =>
    match del ((k :: ks).take 100) with
    | .throws e => .throws e
    | .returns n =>
      match delBatchesGo del fuel ((k :: ks).drop 100) with
      | .throws e => .throws e
      | .returns m => .returns (n + m)

/-- The deletion loop of `purgeCache`: `redisClient.del` on slices of 100
keys, summing the returned counts; a throw escapes (to `purgeCache`'s
`catch`). -/
def delBatches (del : List String → CallOutcome Int) (keys : List String) :
    CallOutcome Int :=
  delBatchesGo del keys.length keys

structure AppliedFilters where
  sessionId : Option String
  modelName : Option String
  metadata : Option (List (String × String))

/-- The result object of `purgeCache`.  On the `catch` path the source object
only has `success`, `error` and `deletedKeys: 0`; the absent fields are
`none`. -/
structure PurgeResult where
  success : Bool
  error : Option String
  deletedKeys : Int
  totalKeysFound : Option Nat
  timeFrame : Option String
  specificDate : Option String
  appliedFilters : Option AppliedFilters

/-- `CacheService.purgeCache`.  `del` abstracts `redisClient.del`; `isoParse`
and `now` abstract `new Date` parsing and `Date.now()`. -/
def purgeCache (st : Store) (del : List String → CallOutcome Int)
    (isoParse : String → Option Int) (now : Int) (o : PurgeOpts) : PurgeResult :=
  match computeCutoff isoParse now o with
  | .error e =>
    { success := false, error := some e, deletedKeys := 0,
      totalKeysFound := none, timeFrame := none, specificDate := none,
      appliedFilters := none }
  | .ok cutoff =>
    let allKeys := allKeysOf st
    let keysToDelete := purgeSelect st o cutoff allKeys
    match delBatches del keysToDelete with
    | .throws e =>
      { success := false, error := some e, deletedKeys := 0,
        totalKeysFound := none, timeFrame := none, specificDate := none,
        appliedFilters := none }
    | .returns deletedCount =>
      { success := true, error := none, deletedKeys := deletedCount,
        totalKeysFound := some allKeys.length,
        timeFrame := if optTruthy o.specificDate then none
                     else some (o.timeFrame.getD "all"),
        specificDate := if optTruthy o.specificDate then o.specificDate else none,
        appliedFilters := some
          { sessionId := if optTruthy o.sessionId then o.sessionId else none,
            modelName := if optTruthy o.modelName then o.modelName else none,
            metadata := o.metadata } }

/-! ## Persistence of conversations and sessions

Redis writes performed by the wizard routes (`leiasRoutes.js`, second wizard
variant, lines 248-401) and by `SessionService.createSession`. -/

inductive StoredVal where
  | convVal (c : Conversation)
  | hashVal (fields : List (String × String))
  | rawVal (s : String)

structure KVEntry where
  value : StoredVal
  ttlSeconds : Option Nat

structure KVStore where
  entries : List (String × KVEntry)

/-- `redisClient.set(key, value, { EX: ex })`: full overwrite with a fresh
TTL. -/
def kvSetEx (st : KVStore) (key : String) (v : StoredVal) (ex : Nat) : KVStore :=
  ⟨setKV st.entries key ⟨v, some ex⟩⟩

/-- `redisClient.hSet(key, fields)`: merge fields into the hash; the key's TTL
is untouched, and a freshly created hash key has no TTL at all. -/
def kvHSet (st : KVStore) (key : String) (fields : List (String × String)) : KVStore :=
  match st.entries.lookup key with
  | some e =>
    match e.value with
    | .hashVal old =>
      ⟨setKV st.entries key
        ⟨.hashVal (fields.foldl (fun acc kv => setKV acc kv.1 kv.2) old), e.ttlSeconds⟩⟩
    | _ => st
  | none =>
    ⟨setKV st.entries key
      ⟨.hashVal (fields.foldl (fun acc kv => setKV acc kv.1 kv.2) []), none⟩⟩

/-- Redis effect of `POST /wizard/sessions`: store the fresh conversation
under `wizard:<sessionId>` with `EX: 3600`. -/
def wizardCreateSessionRoute (st : KVStore) (sessionId userPrompt : String)
    (userToken : JVal) : KVStore :=
  kvSetEx st ("wizard:" ++ sessionId) (.convVal (createSession userPrompt userToken)) 3600

/-- Redis effect of `GET /wizard/sessions/:sessionId/stream`: load the
conversation; if its last message is user-role, run the wizard turn and
re-write the whole record with `EX: 3600`; otherwise nothing is written. -/
def lastMessageIsUser (conversation : Conversation) : Bool :=
  match conversation.messages with
  | .arr ms =>
    match ms.getLast? with
    | some m =>
      match m.get "role" with
      | .str r => r == "user"
      | _ => false
    | none => false
  | _ => false

def wizardStreamRoute (st : KVStore) (sessionId : String) (env : Nat → ProvResp) :
    KVStore :=
  match st.entries.lookup ("wizard:" ++ sessionId) with
  | some e =>
    match e.value with
    | .convVal conversation =>
      let needsProcessing := lastMessageIsUser conversation
      if needsProcessing then
        kvSetEx st ("wizard:" ++ sessionId)
          (.convVal (sendMessageStream env none conversation).conv) 3600
      else st
    | _ => st
  | none => st

/-- Redis effect of `POST /wizard/sessions/:sessionId/message`: append the
user message and re-write the whole record with `EX: 3600` (no write on a
falsy message or a missing session). -/
def wizardMessageRoute (st : KVStore) (sessionId message : String) : KVStore :=
  if message = "" then st
  else
    match st.entries.lookup ("wizard:" ++ sessionId) with
    | some e =>
      match e.value with
      | .convVal conversation =>
        kvSetEx st ("wizard:" ++ sessionId)
          (.convVal (conversation.pushMsg (userMsg message))) 3600
      | _ => st
    | none => st

/-- The provider-specific session-handle fields stored by
`SessionService.createSession` (each `|| null` in the source; absent values
abstracted to the empty string). -/
structure SessionDetails where
  assistantId : Option String := none
  threadId : Option String := none
  conversationId : Option String := none
  instructions : Option String := none

/-- Redis effect of `SessionService.createSession` (`hSet` of the session
hash; no expiry is ever set on `session:<id>` keys). -/
def sessionServiceCreateSession (st : KVStore) (sessionId modelName : String)
    (d : SessionDetails) (now : Int) : KVStore :=
  kvHSet st (sessionPrefix ++ sessionId)
    [("sessionId", sessionId), ("modelName", modelName),
     ("assistantId", d.assistantId.getD ""), ("threadId", d.threadId.getD ""),
     ("conversationId", d.conversationId.getD ""),
     ("instructions", d.instructions.getD ""),
     ("createdAt", toString now)]

/-! ## Observers and concrete scenarios used by the theorems -/

/-- The completion invariant claimed by the spec, in the truthiness terms the
loop itself uses: a truthy `completed` flag requires all three artifact slots
truthy. -/
def completionInvariant (c : Conversation) : Bool :=
  !c.completed.truthy || (c.persona.truthy && c.problem.truthy && c.behaviour.truthy)

/-- The tool-role entries one provider response appends to the history: the
result of each requested call whose name resolves in `FUNCTION_HANDLERS`, in
request order. -/
def appendedToolMessages (calls : List (ToolCall × HandlerOutcome)) : List JVal :=
  calls.filterMap fun p =>
    if p.1.name ∈ knownFunctions then
      some (toolMsg p.1.id (runHandler p.1.name p.1.args p.2))
    else none

/-- A provider behaviour that fills all three artifacts through tool calls and
then keeps requesting tool calls, so the turn only ends at the iteration
ceiling. -/
def envAllTools : Nat → ProvResp := fun i =>
  { content := .null,
    toolCalls := [(⟨"call-1",
        if i = 0 then "generate_persona"
        else if i = 1 then "generate_problem" else "generate_behaviour",
        .obj []⟩, .extValue (.str "X"))] }

/-- A provider behaviour that requests tool calls for fourteen iterations and
answers with plain text on the fifteenth. -/
def envTextAtCeiling : Nat → ProvResp := fun i =>
  if i < 14 then
    { content := .null,
      toolCalls := [(⟨"call-1", "analyze_requirements", .obj []⟩, .extValue .null)] }
  else { content := .str "all done", toolCalls := [] }

/-- A store holding 150 session keys, so that purge deletion needs two
batches. -/
def storeTwoBatches : Store :=
  { keys := (List.range 101).map (fun i => "session:k" ++ toString i), hashes := [] }

/-- A `del` behaviour that succeeds on the first batch and throws on the batch
containing `session:k100`. -/
def delSecondBatchFails : List String → CallOutcome Int := fun batch =>
  if "session:k100" ∈ batch then .throws "redis down"
  else .returns (batch.length : Int)

/-- A successful `refine_component` result exactly as `refineComponent`
builds it: `componentType` echoed, the payload under `component`, no
`refined` field. -/
def refineSuccessNoRefined : JVal :=
  .obj [("success", .bool true), ("componentType", .str "completed"),
        ("component", .str "value")]

/-- A hypothetical successful `refine_component` result carrying a truthy
`refined` payload and a non-artifact `componentType`. -/
def refineHijack : JVal :=
  .obj [("success", .bool true), ("refined", .str "not a flag"),
        ("componentType", .str "completed")]

def demoConv : Conversation := createSession "demo" .null

/-- A provider module that passes the structure checks and answers the smoke
test with a truthy `message`. -/
def okModule : ProviderModule :=
  { hasSendMessage := true, hasCreateSession := true,
    createSessionOutcome := .returns (.obj []),
    sendMessageOutcome := .returns (.obj [("message", .str "ok")]) }

/-- A provider module whose smoke test throws in `createSession`. -/
def throwingModule : ProviderModule :=
  { hasSendMessage := true, hasCreateSession := true,
    createSessionOutcome := .throws "boom",
    sendMessageOutcome := .returns (.obj [("message", .str "ok")]) }

/-- A registry state whose configured default is not validated while another
provider is. -/
def mmTwo : MMState :=
  { models := [("openai", okModule), ("ollama", okModule)],
    validatedModels := ["ollama"], defaultModel := "openai", redisValidated := [] }

/-- A store with one timestamped session record and one models record. -/
def storeTimed : Store :=
  { keys := ["session:abc", "models:available"],
    hashes := [("session:abc", [("createdAt", "1000")])] }

/-- The key/value store right after one wizard session has been created. -/
def wizStore1 : KVStore := wizardCreateSessionRoute ⟨[]⟩ "s1" "make a leia" .null

/-! # Lemmas about the wizard loop -/

theorem pushMsg_persona (c : Conversation) (m : JVal) :
    (c.pushMsg m).persona = c.persona := by
  unfold Conversation.pushMsg; split <;> rfl

theorem pushMsg_problem (c : Conversation) (m : JVal) :
    (c.pushMsg m).problem = c.problem := by
  unfold Conversation.pushMsg; split <;> rfl

theorem pushMsg_behaviour (c : Conversation) (m : JVal) :
    (c.pushMsg m).behaviour = c.behaviour := by
  unfold Conversation.pushMsg; split <;> rfl

theorem pushMsg_completed (c : Conversation) (m : JVal) :
    (c.pushMsg m).completed = c.completed := by
  unfold Conversation.pushMsg; split <;> rfl

theorem pushMsg_messages (c : Conversation) (m : JVal) (ms : List JVal)
    (h : c.messages = .arr ms) : (c.pushMsg m).messages = .arr (ms ++ [m]) := by
  unfold Conversation.pushMsg; rw [h]

theorem pushMsg_invariant (c : Conversation) (m : JVal) :
    completionInvariant (c.pushMsg m) = completionInvariant c := by
  unfold completionInvariant
  rw [pushMsg_persona, pushMsg_problem, pushMsg_behaviour, pushMsg_completed]

/-- The success result of `refineComponent` carries the payload under
`component`; neither it nor the failure result has a `refined` field. -/
theorem runHandler_refine_get_refined (args : JVal) (o : HandlerOutcome) :
    (runHandler "refine_component" args o).get "refined" = JVal.undefined := by
  unfold runHandler
  rw [if_pos rfl]
  split
  · split_ifs with hb
    · cases o <;> rfl
    · rfl
  · rfl

/-- `updateSessionState` leaves `completed` and `messages` alone and can only
make artifact slots more truthy, as long as a `refine_component` result has no
truthy `refined` field. -/
theorem updateSessionState_fields (c : Conversation) (nm : String) (r : JVal)
    (href : nm = "refine_component" → (r.get "refined").truthy = false) :
    (updateSessionState c nm r).completed = c.completed ∧
    (updateSessionState c nm r).messages = c.messages ∧
    (c.persona.truthy = true → (updateSessionState c nm r).persona.truthy = true) ∧
    (c.problem.truthy = true → (updateSessionState c nm r).problem.truthy = true) ∧
    (c.behaviour.truthy = true → (updateSessionState c nm r).behaviour.truthy = true) := by
  unfold updateSessionState
  split_ifs with h1 h2 h3 h4 h5 h6 h7 h8 h9 <;>
    first
      | (refine ⟨rfl, rfl, ?_, ?_, ?_⟩ <;> intro hh <;> simp_all)
      | (exact absurd (href h8) (by simp [h9]))

theorem updateSessionState_runHandler_fields (c : Conversation) (nm : String)
    (args : JVal) (o : HandlerOutcome) :
    (updateSessionState c nm (runHandler nm args o)).completed = c.completed ∧
    (updateSessionState c nm (runHandler nm args o)).messages = c.messages ∧
    (c.persona.truthy = true →
      (updateSessionState c nm (runHandler nm args o)).persona.truthy = true) ∧
    (c.problem.truthy = true →
      (updateSessionState c nm (runHandler nm args o)).problem.truthy = true) ∧
    (c.behaviour.truthy = true →
      (updateSessionState c nm (runHandler nm args o)).behaviour.truthy = true) :=
  updateSessionState_fields c nm _ (fun h => by
    subst h; rw [runHandler_refine_get_refined]; rfl)

/-- Processing a batch of tool calls never touches `completed` and can only
make artifact slots more truthy. -/
theorem processCalls_conv (calls : List (ToolCall × HandlerOutcome)) :
    ∀ c : Conversation,
    ((processCalls c calls).1.completed = c.completed) ∧
    (c.persona.truthy = true → (processCalls c calls).1.persona.truthy = true) ∧
    (c.problem.truthy = true → (processCalls c calls).1.problem.truthy = true) ∧
    (c.behaviour.truthy = true → (processCalls c calls).1.behaviour.truthy = true) := by
  induction calls with
  | nil => exact fun c => ⟨rfl, fun h => h, fun h => h, fun h => h⟩
  | cons p rest ih =>
    intro c
    obtain ⟨tc, o⟩ := p
    by_cases hk : tc.name ∈ knownFunctions
    · simp only [processCalls, hk, if_pos]
      set m := toolMsg tc.id (runHandler tc.name tc.args o) with hm
      have hp := pushMsg_persona c m
      have hq := pushMsg_problem c m
      have hb := pushMsg_behaviour c m
      have hc := pushMsg_completed c m
      have hu := updateSessionState_runHandler_fields (c.pushMsg m) tc.name tc.args o
      have hrest := ih (updateSessionState (c.pushMsg m) tc.name
        (runHandler tc.name tc.args o))
      refine ⟨?_, ?_, ?_, ?_⟩
      · rw [hrest.1, hu.1, hc]
      · intro h; exact hrest.2.1 (hu.2.2.1 (by rw [hp]; exact h))
      · intro h; exact hrest.2.2.1 (hu.2.2.2.1 (by rw [hq]; exact h))
      · intro h; exact hrest.2.2.2 (hu.2.2.2.2 (by rw [hb]; exact h))
    · simp only [processCalls, hk, if_neg, if_false]
      exact ih c

theorem processCalls_invariant (calls : List (ToolCall × HandlerOutcome))
    (c : Conversation) (h : completionInvariant c = true) :
    completionInvariant (processCalls c calls).1 = true := by
  have hc := processCalls_conv calls c
  unfold completionInvariant at h ⊢
  rw [hc.1]
  cases hcm : c.completed.truthy with
  | false => simp [hcm]
  | true =>
    rw [hcm] at h
    simp only [Bool.not_true, Bool.false_or] at h
    simp only [Bool.not_true, Bool.false_or]
    have h1 := hc.2.1 (by
      cases hp : c.persona.truthy
      · rw [hp] at h; simp at h
      · rfl)
    have h2 := hc.2.2.1 (by
      cases hp : c.problem.truthy
      · rw [hp] at h; simp at h
      · rfl)
    have h3 := hc.2.2.2 (by
      cases hp : c.behaviour.truthy
      · rw [hp] at h; simp at h
      · rfl)
    rw [h1, h2, h3]; rfl

/-- Tool results are appended to the history in request order. -/
theorem processCalls_messages (calls : List (ToolCall × HandlerOutcome)) :
    ∀ (c : Conversation) (ms : List JVal), c.messages = .arr ms →
    (processCalls c calls).1.messages = .arr (ms ++ appendedToolMessages calls) := by
  induction calls with
  | nil =>
    intro c ms h
    simpa [appendedToolMessages] using h
  | cons p rest ih =>
    intro c ms h
    obtain ⟨tc, o⟩ := p
    by_cases hk : tc.name ∈ knownFunctions
    · simp only [processCalls, hk, if_pos]
      set m := toolMsg tc.id (runHandler tc.name tc.args o) with hm
      have h1 : (c.pushMsg m).messages = .arr (ms ++ [m]) := pushMsg_messages c m ms h
      have h2 : (updateSessionState (c.pushMsg m) tc.name
          (runHandler tc.name tc.args o)).messages = .arr (ms ++ [m]) := by
        rw [(updateSessionState_runHandler_fields (c.pushMsg m) tc.name tc.args o).2.1, h1]
      have h3 := ih _ _ h2
      rw [h3]
      simp [appendedToolMessages, hk, hm]
    · simp only [processCalls, hk, if_neg, if_false]
      have h3 := ih c ms h
      rw [h3]
      simp [appendedToolMessages, hk]

theorem processCalls_no_error (calls : List (ToolCall × HandlerOutcome)) :
    ∀ (c : Conversation) (s : String), WEvent.error s ∉ (processCalls c calls).2 := by
  induction calls with
  | nil => intro c s h; simp [processCalls] at h
  | cons p rest ih =>
    intro c s
    obtain ⟨tc, o⟩ := p
    by_cases hk : tc.name ∈ knownFunctions
    · simp only [processCalls, hk, if_pos]
      intro h
      rcases List.mem_cons.mp h with h | h
      · exact WEvent.noConfusion h
      rcases List.mem_cons.mp h with h | h
      · exact WEvent.noConfusion h
      · exact ih _ s h
    · simp only [processCalls, hk, if_neg, if_false]
      intro h
      rcases List.mem_cons.mp h with h | h
      · exact WEvent.noConfusion h
      · exact ih c s h

/-- The loop runs at most `fuel` more iterations and never rewinds the
iteration counter. -/
theorem runLoop_iters (env : Nat → ProvResp) :
    ∀ (fuel : Nat) (c : Conversation) (i : Nat),
    i ≤ (runLoop env fuel c i).iters ∧ (runLoop env fuel c i).iters ≤ i + fuel := by
  intro fuel
  induction fuel with
  | zero => intro c i; simp [runLoop]
  | succ f ih =>
    intro c i
    simp only [runLoop]
    split
    · split_ifs <;> simp
    · have := ih (processCalls
        (c.pushMsg (assistantMsg (env i).content ((env i).toolCalls.map Prod.fst)))
        (env i).toolCalls).1 (i + 1)
      simp only []
      omega

theorem runLoop_no_error (env : Nat → ProvResp) :
    ∀ (fuel : Nat) (c : Conversation) (i : Nat) (s : String),
    WEvent.error s ∉ (runLoop env fuel c i).events := by
  intro fuel
  induction fuel with
  | zero => intro c i s h; simp [runLoop] at h
  | succ f ih =>
    intro c i s
    simp only [runLoop]
    split
    · split_ifs <;> intro h <;> simp only [List.mem_cons] at h <;>
        rcases h with h | h | h <;>
          first
            | exact WEvent.noConfusion h
            | (rcases h with h | h
               · exact WEvent.noConfusion h
               · simp at h)
            | simp at h
    · intro h
      rcases List.mem_cons.mp h with h | h
      · exact WEvent.noConfusion h
      rcases List.mem_append.mp h with h | h
      · exact processCalls_no_error _ _ s h
      · exact ih _ (i + 1) s h

theorem runLoop_invariant (env : Nat → ProvResp) :
    ∀ (fuel : Nat) (c : Conversation) (i : Nat),
    completionInvariant c = true →
    completionInvariant (runLoop env fuel c i).conv = true := by
  intro fuel
  induction fuel with
  | zero => intro c i h; simpa [runLoop] using h
  | succ f ih =>
    intro c i h
    simp only [runLoop]
    split
    · split_ifs with hart
      · simp only [completionInvariant]
        have hp : ∀ cc : Conversation, ∀ v,
            ({ cc with completed := v } : Conversation).persona = cc.persona := fun _ _ => rfl
        simp only [JVal.truthy, Bool.not_true, Bool.false_or]
        exact hart
      · simpa [pushMsg_invariant] using h
    · exact ih _ (i + 1) (processCalls_invariant _ _ (by simpa [pushMsg_invariant] using h))

theorem runLoop_messages (env : Nat → ProvResp) :
    ∀ (fuel : Nat) (c : Conversation) (i : Nat) (ms : List JVal),
    c.messages = .arr ms →
    ∃ t, (runLoop env fuel c i).conv.messages = .arr (ms ++ t) := by
  intro fuel
  induction fuel with
  | zero => intro c i ms h; exact ⟨[], by simpa [runLoop] using h⟩
  | succ f ih =>
    intro c i ms h
    simp only [runLoop]
    split
    case _ heq =>
      have h0 := pushMsg_messages c
        (assistantMsg (env i).content ((env i).toolCalls.map Prod.fst)) ms h
      split_ifs
      · exact ⟨_, h0⟩
      · exact ⟨_, h0⟩
    case _ a l heq =>
      have h0 := pushMsg_messages c
        (assistantMsg (env i).content ((env i).toolCalls.map Prod.fst)) ms h
      have h1 := processCalls_messages (env i).toolCalls _ _ h0
      obtain ⟨t, ht⟩ := ih _ (i + 1) _ h1
      refine ⟨[assistantMsg (env i).content ((env i).toolCalls.map Prod.fst)] ++
        appendedToolMessages (env i).toolCalls ++ t, ?_⟩
      rw [ht]; simp

theorem finishTurn_conv (r : LoopOut) : (finishTurn r).conv = r.conv := by
  unfold finishTurn; split_ifs <;> rfl

theorem finishTurn_spec (r : LoopOut) (hle : r.iters ≤ maxIterations)
    (hnoerr : ∀ s, WEvent.error s ∉ r.events) :
    (finishTurn r).iters ≤ maxIterations ∧
    ((WEvent.error iterationErrorMsg ∈ (finishTurn r).events) ↔
      (finishTurn r).iters = maxIterations) := by
  unfold finishTurn
  split_ifs with h
  · refine ⟨by simpa using hle, ?_⟩
    constructor
    · intro _
      show r.iters = maxIterations
      omega
    · intro _
      simp [List.mem_append]
  · refine ⟨by simpa using hle, ?_⟩
    constructor
    · intro hmem
      exact absurd hmem (hnoerr _)
    · intro he
      exact absurd he (by omega)

/-! # Claim theorems for the wizard loop -/

/-- C1, counterexample: a turn in which tool calls fill all three artifact
slots but the provider keeps requesting tool calls until the iteration
ceiling produces a Conversation whose `persona`, `problem` and `behaviour`
are all non-null while `completed` is still `false` — refuting the claimed
biconditional `completed ⟺ all artifacts non-null`. -/
theorem wizard_completed_iff_counterexample :
    (sendMessageStream envAllTools none demoConv).conv.persona = JVal.str "X" ∧
    (sendMessageStream envAllTools none demoConv).conv.problem = JVal.str "X" ∧
    (sendMessageStream envAllTools none demoConv).conv.behaviour = JVal.str "X" ∧
    (sendMessageStream envAllTools none demoConv).conv.completed = JVal.bool false ∧
    JVal.str "X" ≠ JVal.null :=
  ⟨rfl, rfl, rfl, rfl, fun h => JVal.noConfusion h⟩

/-- C1 (amended): one direction of the invariant holds — `createSession`
starts with the invariant, every turn of the loop preserves it, and a truthy
value is non-null: whenever `completed` is true all three artifacts are
non-null.  The converse direction fails (see the counterexample): a turn that
exhausts the iteration ceiling can leave all three artifacts non-null with
`completed` still false, because `completed` is only set when a turn ends
with a plain-text response. -/
theorem wizard_completed_implies_artifacts :
    (∀ instructions tok, completionInvariant (createSession instructions tok) = true) ∧
    (∀ env message c, completionInvariant c = true →
      completionInvariant (sendMessageStream env message c).conv = true) ∧
    (∀ v : JVal, v.truthy = true → v ≠ JVal.null) := by
  refine ⟨fun _ _ => rfl, ?_, ?_⟩
  · intro env message c h
    simp only [sendMessageStream]
    rw [finishTurn_conv]
    apply runLoop_invariant
    cases message with
    | none => exact h
    | some m =>
      dsimp only
      split_ifs
      · exact h
      · rw [pushMsg_invariant]; exact h
  · intro v hv h
    subst h
    exact Bool.noConfusion hv

/-- C1, witness for the amended theorem at a concrete conversation and
environment. -/
theorem wizard_completed_implies_artifacts_witness :
    completionInvariant (sendMessageStream envAllTools none demoConv).conv = true :=
  wizard_completed_implies_artifacts.2.1 envAllTools none demoConv rfl

/-- C2, counterexample: with fourteen tool iterations and a plain-text
response on the fifteenth, the turn ends with a plain-text `message` event
and nevertheless also emits the iteration-ceiling `error` event, because the
post-loop check `iterationCount >= maxIterations` also fires when the
fifteenth response was text — refuting the claim that a turn ending in a
plain-text response never carries the ceiling error. -/
theorem wizard_text_at_ceiling_counterexample :
    (sendMessageStream envTextAtCeiling none demoConv).iters = 15 ∧
    (sendMessageStream envTextAtCeiling none demoConv).events.length = 45 ∧
    (sendMessageStream envTextAtCeiling none demoConv).events.get? 43 =
      some (WEvent.message (JVal.str "all done")) ∧
    (sendMessageStream envTextAtCeiling none demoConv).events.getLast? =
      some (WEvent.error iterationErrorMsg) :=
  ⟨rfl, rfl, rfl, rfl⟩

/-- C2 (amended): every turn performs at most 15 provider round-trips, and
the retry-advisory error event is emitted exactly when the turn used all 15 —
so an over-long tool chain always ends in the error event rather than looping
forever, a plain-text answer within the first fourteen iterations ends the
turn without it, but a plain-text answer on the fifteenth iteration still
carries it. -/
theorem wizard_iteration_ceiling (env : Nat → ProvResp) (message : Option String)
    (c : Conversation) :
    (sendMessageStream env message c).iters ≤ maxIterations ∧
    ((WEvent.error iterationErrorMsg ∈ (sendMessageStream env message c).events) ↔
      (sendMessageStream env message c).iters = maxIterations) := by
  simp only [sendMessageStream]
  exact finishTurn_spec _ (by simpa using (runLoop_iters env maxIterations _ 0).2)
    (fun s => runLoop_no_error env maxIterations _ 0 s)

/-- C7: the message list is strictly append-only across a turn — the prior
history is a prefix of the new one — and within a provider response the
tool-role results are appended exactly in the order the calls were requested
(unknown names skipped). -/
theorem wizard_history_append_only :
    (∀ env message c ms, c.messages = JVal.arr ms →
      ∃ t, (sendMessageStream env message c).conv.messages = JVal.arr (ms ++ t)) ∧
    (∀ c ms calls, c.messages = JVal.arr ms →
      (processCalls c calls).1.messages = JVal.arr (ms ++ appendedToolMessages calls)) := by
  constructor
  · intro env message c ms h
    simp only [sendMessageStream]
    rw [finishTurn_conv]
    cases message with
    | none => exact runLoop_messages env maxIterations c 0 ms h
    | some m =>
      dsimp only
      split_ifs
      · exact runLoop_messages env maxIterations c 0 ms h
      · obtain ⟨t, ht⟩ := runLoop_messages env maxIterations (c.pushMsg (userMsg m)) 0
          (ms ++ [userMsg m]) (pushMsg_messages c _ ms h)
        exact ⟨[userMsg m] ++ t, by rw [ht]; simp⟩
  · intro c ms calls h
    exact processCalls_messages calls c ms h

/-- C7, witness at a concrete conversation and environment. -/
theorem wizard_history_append_only_witness :
    (∃ t, (sendMessageStream envTextAtCeiling none demoConv).conv.messages =
      JVal.arr ([systemMsg WIZARD_SYSTEM_PROMPT, userMsg "demo"] ++ t)) ∧
    (processCalls demoConv []).1.messages =
      JVal.arr ([systemMsg WIZARD_SYSTEM_PROMPT, userMsg "demo"] ++
        appendedToolMessages []) :=
  ⟨wizard_history_append_only.1 envTextAtCeiling none demoConv _ rfl,
   wizard_history_append_only.2 demoConv _ [] rfl⟩

/-- C10, counterexample: a successful `refine_component` result shaped the
way `refineComponent` actually builds it — payload under `component`, no
`refined` field — causes no assignment at all in `updateSessionState`, so it
is not the case that every successful refine result overwrites the field
named by its `componentType`. -/
theorem updateSessionState_refine_counterexample :
    (refineSuccessNoRefined.get "success").truthy = true ∧
    refineSuccessNoRefined.get "componentType" = JVal.str "completed" ∧
    updateSessionState demoConv "refine_component" refineSuccessNoRefined = demoConv :=
  ⟨rfl, rfl, rfl⟩

/-- C10 (amended): for every successful `refine_component` result that does
carry a truthy `refined` payload, `updateSessionState` assigns it to the
Conversation property named by `result.componentType` with no validation of
the component type — in particular a `componentType` of `"completed"`
overwrites the completion flag. -/
theorem updateSessionState_refine_unvalidated (c : Conversation) (result : JVal)
    (hs : (result.get "success").truthy = true)
    (hr : (result.get "refined").truthy = true) :
    updateSessionState c "refine_component" result =
      c.setField ((result.get "componentType").asKey) (result.get "refined") ∧
    (result.get "componentType" = JVal.str "completed" →
      (updateSessionState c "refine_component" result).completed = result.get "refined") := by
  have h1 : updateSessionState c "refine_component" result =
      c.setField ((result.get "componentType").asKey) (result.get "refined") := by
    unfold updateSessionState
    rw [if_neg (by simp [hs]), if_neg (by decide), if_neg (by decide),
        if_neg (by decide), if_pos rfl, if_pos hr]
  refine ⟨h1, ?_⟩
  intro hct
  rw [h1, hct]
  simp [Conversation.setField, JVal.asKey]

/-- C10, witness: a concrete hijacking result overwrites `completed`. -/
theorem updateSessionState_refine_unvalidated_witness :
    (updateSessionState demoConv "refine_component" refineHijack).completed =
      JVal.str "not a flag" :=
  (updateSessionState_refine_unvalidated demoConv refineHijack rfl rfl).2 rfl

/-! # Lemmas and claim theorems for the ModelManager registry -/

theorem mem_setAdd (s : List String) (x y : String) :
    y ∈ setAdd s x ↔ y ∈ s ∨ y = x := by
  unfold setAdd
  split_ifs with h
  · constructor
    · exact Or.inl
    · rintro (h2 | h2)
      · exact h2
      · rw [h2]; exact h
  · simp [List.mem_append]

theorem testModel_failure_errors (m : ProviderModule) :
    (testModel m).success = false → (testModel m).errors ≠ [] := by
  cases hsm : m.hasSendMessage <;> cases hcs : m.hasCreateSession <;>
    cases hco : m.createSessionOutcome <;> cases hso : m.sendMessageOutcome <;>
      simp [testModel, hsm, hcs, hco, hso] <;> split_ifs <;> simp

/-- C3: the async `registerModel` re-runs the smoke test and admits the
provider to the validated set only when the test succeeds; any failing test —
including one whose smoke calls throw, which `testModel` converts to
`success:false` with error messages, and a load-time throw — leaves the
validated set unchanged and returns `success:false` with a non-empty error
list. -/
theorem registerModel_validation (s : MMState) (modelName : String) :
    (∀ m, (testModel m).success = false →
      (registerModel s modelName (.loaded m)).1.validatedModels = s.validatedModels ∧
      (registerModel s modelName (.loaded m)).2.success = false ∧
      (registerModel s modelName (.loaded m)).2.errors = (testModel m).errors ∧
      (testModel m).errors ≠ []) ∧
    (∀ e, (registerModel s modelName (.throws e)).1 = s ∧
      (registerModel s modelName (.throws e)).2.success = false ∧
      (registerModel s modelName (.throws e)).2.errors = [e]) ∧
    (∀ m, (testModel m).success = true →
      modelName ∈ (registerModel s modelName (.loaded m)).1.validatedModels ∧
      (registerModel s modelName (.loaded m)).2.success = true) ∧
    (∀ load, modelName ∉ s.validatedModels →
      modelName ∈ (registerModel s modelName load).1.validatedModels →
      ∃ m, load = .loaded m ∧ (testModel m).success = true) := by
  refine ⟨?_, ?_, ?_, ?_⟩
  · intro m h
    have hfail : registerModel s modelName (.loaded m) =
        ({ s with redisValidated := setKV s.redisValidated modelName "false" },
         { success := false, errors := (testModel m).errors }) := by
      simp only [registerModel]
      rw [if_neg (by simp [h])]
    rw [hfail]
    exact ⟨rfl, rfl, rfl, testModel_failure_errors m h⟩
  · intro e
    exact ⟨rfl, rfl, rfl⟩
  · intro m h
    have hok : registerModel s modelName (.loaded m) =
        ({ s with models := setKV s.models modelName m,
                  validatedModels := setAdd s.validatedModels modelName,
                  redisValidated := setKV s.redisValidated modelName "true" },
         { success := true, errors := [] }) := by
      simp only [registerModel]
      rw [if_pos h]
    rw [hok]
    exact ⟨(mem_setAdd _ _ _).mpr (Or.inr rfl), rfl⟩
  · intro load hnot hmem
    cases load with
    | throws e => exact absurd hmem hnot
    | loaded m =>
      cases htm : (testModel m).success with
      | true => exact ⟨m, rfl, htm⟩
      | false =>
        have hfail : registerModel s modelName (.loaded m) =
            ({ s with redisValidated := setKV s.redisValidated modelName "false" },
             { success := false, errors := (testModel m).errors }) := by
          simp only [registerModel]
          rw [if_neg (by simp [htm])]
        rw [hfail] at hmem
        exact absurd hmem hnot

/-- C3, witness: registering a throwing provider into a concrete registry
leaves the validated set unchanged and fails with errors. -/
theorem registerModel_validation_witness :
    (registerModel mmTwo "custom" (.loaded throwingModule)).1.validatedModels =
      mmTwo.validatedModels ∧
    (registerModel mmTwo "custom" (.loaded throwingModule)).2.success = false ∧
    (registerModel mmTwo "custom" (.loaded throwingModule)).2.errors ≠ [] := by
  have h := (registerModel_validation mmTwo "custom").1 throwingModule rfl
  refine ⟨h.1, h.2.1, ?_⟩
  rw [h.2.2.1]
  exact h.2.2.2

/-- C4: `getModel "default"` returns the provider registered under the
configured default name exactly when that name is validated; otherwise it
serves some other validated name; it throws the not-found error on the
default name exactly when the validated set is empty, and on a non-default
name exactly when that name is not validated. -/
theorem getModel_default_selection (s : MMState) :
    (s.defaultModel ∈ s.validatedModels →
      getModel s "default" = .ok (s.models.lookup s.defaultModel)) ∧
    (s.defaultModel ∉ s.validatedModels → s.validatedModels ≠ [] →
      ∃ n, n ∈ s.validatedModels ∧ n ≠ s.defaultModel ∧
        getModel s "default" = .ok (s.models.lookup n)) ∧
    ((∃ e, getModel s "default" = .error e) ↔ s.validatedModels = []) ∧
    (∀ name, name ≠ "default" →
      ((∃ e, getModel s name = .error e) ↔ name ∉ s.validatedModels)) := by
  refine ⟨?_, ?_, ?_, ?_⟩
  · intro h
    simp [getModel, h]
  · intro h hne
    obtain ⟨first, rest, hv⟩ : ∃ f r, s.validatedModels = f :: r := by
      cases hvv : s.validatedModels with
      | nil => exact absurd hvv hne
      | cons f r => exact ⟨f, r, rfl⟩
    refine ⟨first, ?_, ?_, ?_⟩
    · rw [hv]; exact List.mem_cons_self first rest
    · intro heq
      exact h (by rw [hv, ← heq]; exact List.mem_cons_self first rest)
    · rw [hv] at h
      simp [getModel, h, hv]
  · constructor
    · rintro ⟨e, he⟩
      by_contra hne
      obtain ⟨first, rest, hv⟩ : ∃ f r, s.validatedModels = f :: r := by
        cases hvv : s.validatedModels with
        | nil => exact absurd hvv hne
        | cons f r => exact ⟨f, r, rfl⟩
      by_cases h : s.defaultModel ∈ s.validatedModels
      · simp [getModel, h] at he
      · rw [hv] at h
        simp [getModel, h, hv] at he
    · intro hv
      simp [getModel, hv]
  · intro name hname
    constructor
    · rintro ⟨e, he⟩ hmem
      simp [getModel, hname, hmem] at he
    · intro hmem
      simp [getModel, hname, hmem]

/-- C4, witness: in a registry whose configured default is not validated,
`getModel "default"` serves another validated provider, and a non-default
unvalidated name fails. -/
theorem getModel_default_selection_witness :
    (∃ n, n ∈ mmTwo.validatedModels ∧ n ≠ mmTwo.defaultModel ∧
      getModel mmTwo "default" = .ok (mmTwo.models.lookup n)) ∧
    ((∃ e, getModel mmTwo "mistral" = .error e) ↔ "mistral" ∉ mmTwo.validatedModels) :=
  ⟨(getModel_default_selection mmTwo).2.1 (by decide) (by decide),
   (getModel_default_selection mmTwo).2.2.2 "mistral" (by decide)⟩

/-! # Lemmas and claim theorems for the cache purge -/

theorem filterKeysByTime_mem (st : Store) (keys : List String) (ct : Int) (k : String) :
    k ∈ filterKeysByTime st keys (some ct) ↔ k ∈ keys ∧ timeKeep st ct k = true := by
  simp [filterKeysByTime, List.mem_filter]

theorem filterKeysByTime_subset (st : Store) (keys : List String) (ct : Option Int)
    (k : String) (h : k ∈ filterKeysByTime st keys ct) : k ∈ keys := by
  cases ct with
  | none => simpa [filterKeysByTime] using h
  | some c => exact ((filterKeysByTime_mem st keys c k).mp h).1

theorem filterKeysBySession_subset (keys : List String) (sid : String) (k : String)
    (h : k ∈ filterKeysBySession keys sid) : k ∈ keys :=
  (List.mem_filter.mp h).1

theorem filterKeysByModelGo_subset (st : Store) (allKeys : List String) (mn : String) :
    ∀ (l : List String) (k : String),
    k ∈ filterKeysByModelGo st allKeys mn l → k ∈ l ∨ k ∈ allKeys := by
  intro l
  induction l with
  | nil => intro k h; simp [filterKeysByModelGo] at h
  | cons a l ih =>
    intro k h
    simp only [filterKeysByModelGo] at h
    split_ifs at h with h1 h2 h3
    · rcases List.mem_cons.mp h with h | h
      · exact Or.inl (by rw [h]; exact List.mem_cons_self a l)
      rcases List.mem_cons.mp h with h | h
      · exact Or.inr (by rw [h]; exact h3)
      · rcases ih k h with h | h
        · exact Or.inl (List.mem_cons_of_mem a h)
        · exact Or.inr h
    · rcases List.mem_cons.mp h with h | h
      · exact Or.inl (by rw [h]; exact List.mem_cons_self a l)
      · rcases ih k h with h | h
        · exact Or.inl (List.mem_cons_of_mem a h)
        · exact Or.inr h
    · rcases ih k h with h | h
      · exact Or.inl (List.mem_cons_of_mem a h)
      · exact Or.inr h
    · rcases List.mem_cons.mp h with h | h
      · exact Or.inl (by rw [h]; exact List.mem_cons_self a l)
      · rcases ih k h with h | h
        · exact Or.inl (List.mem_cons_of_mem a h)
        · exact Or.inr h
    · rcases ih k h with h | h
      · exact Or.inl (List.mem_cons_of_mem a h)
      · exact Or.inr h

theorem filterKeysByModel_subset (st : Store) (keys : List String) (mn : String)
    (k : String) (h : k ∈ filterKeysByModel st keys mn) : k ∈ keys :=
  (filterKeysByModelGo_subset st keys mn keys k h).elim id id

theorem filterKeysByMetadataGo_subset (st : Store) (allKeys : List String)
    (md : List (String × String)) :
    ∀ (l : List String) (k : String),
    k ∈ filterKeysByMetadataGo st allKeys md l → k ∈ l ∨ k ∈ allKeys := by
  intro l
  induction l with
  | nil => intro k h; simp [filterKeysByMetadataGo] at h
  | cons a l ih =>
    intro k h
    simp only [filterKeysByMetadataGo] at h
    split_ifs at h with h1 h2 h3
    · rcases List.mem_cons.mp h with h | h
      · exact Or.inl (by rw [h]; exact List.mem_cons_self a l)
      rcases List.mem_cons.mp h with h | h
      · exact Or.inr (by rw [h]; exact h3)
      · rcases ih k h with h | h
        · exact Or.inl (List.mem_cons_of_mem a h)
        · exact Or.inr h
    · rcases List.mem_cons.mp h with h | h
      · exact Or.inl (by rw [h]; exact List.mem_cons_self a l)
      · rcases ih k h with h | h
        · exact Or.inl (List.mem_cons_of_mem a h)
        · exact Or.inr h
    · rcases ih k h with h | h
      · exact Or.inl (List.mem_cons_of_mem a h)
      · exact Or.inr h
    · rcases ih k h with h | h
      · exact Or.inl (List.mem_cons_of_mem a h)
      · exact Or.inr h

theorem filterKeysByMetadata_subset (st : Store) (keys : List String)
    (md : List (String × String)) (k : String)
    (h : k ∈ filterKeysByMetadata st keys md) : k ∈ keys :=
  (filterKeysByMetadataGo_subset st keys md keys k h).elim id id

theorem purgeSelect_subset (st : Store) (o : PurgeOpts) (cutoff : Option Int)
    (allKeys : List String) (k : String) (h : k ∈ purgeSelect st o cutoff allKeys) :
    k ∈ allKeys := by
  simp only [purgeSelect] at h
  have l4 : ∀ x : List String, k ∈ (match o.metadata with
      | some md => if 0 < md.length then filterKeysByMetadata st x md else x
      | none => x) → k ∈ x := by
    intro x hx
    rcases hmd : o.metadata with _ | md
    · rw [hmd] at hx
      exact hx
    · rw [hmd] at hx
      have hx' : k ∈ (if 0 < md.length then filterKeysByMetadata st x md else x) := hx
      split_ifs at hx'
      · exact filterKeysByMetadata_subset st x md k hx'
      · exact hx'
  have l3 : ∀ x : List String, k ∈ (if optTruthy o.modelName then
      filterKeysByModel st x (o.modelName.getD "") else x) → k ∈ x := by
    intro x hx
    split_ifs at hx
    · exact filterKeysByModel_subset st x _ k hx
    · exact hx
  have l2 : ∀ x : List String, k ∈ (if optTruthy o.sessionId then
      filterKeysBySession x (o.sessionId.getD "") else x) → k ∈ x := by
    intro x hx
    split_ifs at hx
    · exact filterKeysBySession_subset x _ k hx
    · exact hx
  have l1 : ∀ x : List String, k ∈ (if cutoff.isSome then
      filterKeysByTime st x cutoff else x) → k ∈ x := by
    intro x hx
    split_ifs at hx
    · exact filterKeysByTime_subset st x cutoff k hx
    · exact hx
  exact l1 _ (l2 _ (l3 _ (l4 _ h)))

/-- C5: the purge filters form a pipeline in the fixed order time, session,
model, metadata, each step a subset of the previous candidate set; a
`session:` key passes the time filter exactly when it carries an explicit,
truthy, parseable `createdAt` no newer than the cutoff (so session keys
without a timestamp are excluded), while keys of other namespaces pass the
time filter unconditionally. -/
theorem purge_filter_pipeline :
    (∀ st keys ct k, k ∈ filterKeysByTime st keys ct → k ∈ keys) ∧
    (∀ keys sid k, k ∈ filterKeysBySession keys sid → k ∈ keys) ∧
    (∀ st keys mn k, k ∈ filterKeysByModel st keys mn → k ∈ keys) ∧
    (∀ st keys md k, k ∈ filterKeysByMetadata st keys md → k ∈ keys) ∧
    (∀ st o cutoff allKeys k, k ∈ purgeSelect st o cutoff allKeys → k ∈ allKeys) ∧
    (∀ st keys ct k, k ∈ filterKeysByTime st keys (some ct) ↔
      (k ∈ keys ∧ timeKeep st ct k = true)) ∧
    (∀ st ct k, strStartsWith k sessionPrefix = true →
      (timeKeep st ct k = true ↔ ∃ sdata n, hGet st k "createdAt" = some sdata ∧
        sdata ≠ "" ∧ parseIntJS sdata = some n ∧ n ≠ 0 ∧ n ≤ ct)) ∧
    (∀ st ct k, strStartsWith k sessionPrefix = false → timeKeep st ct k = true) := by
  refine ⟨filterKeysByTime_subset, filterKeysBySession_subset, filterKeysByModel_subset,
    filterKeysByMetadata_subset, purgeSelect_subset, filterKeysByTime_mem, ?_, ?_⟩
  · intro st ct k h
    simp only [timeKeep, h, if_true]
    cases hg : hGet st k "createdAt" with
    | none => simp
    | some sdata =>
      by_cases hempty : sdata = ""
      · subst hempty; simp
      · cases hp : parseIntJS sdata with
        | none => simp [hempty, hp]
        | some n =>
          simp [hempty, hp, Bool.and_eq_true, decide_eq_true_iff, bne_iff_ne,
            and_assoc]
  · intro st ct k h
    simp [timeKeep, h]

/-- C5, witness: a timestamped session key passes a later cutoff, and a
models-namespace key passes unconditionally. -/
theorem purge_filter_pipeline_witness :
    timeKeep storeTimed 2000 "session:abc" = true ∧
    timeKeep storeTimed 2000 "models:available" = true :=
  ⟨(purge_filter_pipeline.2.2.2.2.2.2.1 storeTimed 2000 "session:abc" (by decide)).mpr
    ⟨"1000", 1000, rfl, by decide, by decide, by decide, by decide⟩,
   purge_filter_pipeline.2.2.2.2.2.2.2 storeTimed 2000 "models:available" (by decide)⟩

theorem delBatchesGo_congr (del del2 : List String → CallOutcome Int)
    (hagree : ∀ b, b.length ≤ 100 → del b = del2 b) :
    ∀ (n : Nat) (keys : List String), delBatchesGo del n keys = delBatchesGo del2 n keys := by
  intro n
  induction n with
  | zero => intro keys; cases keys <;> rfl
  | succ nn ih =>
    intro keys
    cases keys with
    | nil => rfl
    | cons a l =>
      simp only [delBatchesGo]
      rw [hagree _ (by simp [List.length_take])]
      cases del2 ((a :: l).take 100) with
      | throws e => rfl
      | returns m => rw [ih]

/-- C6, counterexample: on a store whose purge selection spans two delete
batches, a throw in the second batch — after the first batch already deleted
100 keys — aborts `purgeCache` through its `catch`: the result reports
`success:false` with `deletedKeys: 0` and carries neither the found-count nor
the applied filter combination, refuting the claim that remaining batches
continue and that counts and filters are reported even on partial failure. -/
theorem purgeCache_batch_error_counterexample :
    delSecondBatchFails ((allKeysOf storeTwoBatches).take 100) = .returns 100 ∧
    purgeCache storeTwoBatches delSecondBatchFails (fun _ => none) 0 {} =
      { success := false, error := some "redis down", deletedKeys := 0,
        totalKeysFound := none, timeFrame := none, specificDate := none,
        appliedFilters := none } :=
  ⟨rfl, rfl⟩

/-- C6 (amended): deletion proceeds in batches of at most 100 keys — the
result of the deletion loop depends only on `del`'s behaviour on lists of at
most 100 keys; when every batch succeeds, the result reports success with the
found count, the summed deleted count and the applied filter combination; but
when any delete batch throws, the remaining batches are abandoned and the
`catch` result reports `success:false` with the error and `deletedKeys: 0`,
without the found count or the filter combination. -/
theorem purgeCache_batching (st : Store) (del del2 : List String → CallOutcome Int)
    (isoParse : String → Option Int) (now : Int) (o : PurgeOpts) :
    ((∀ b, b.length ≤ 100 → del b = del2 b) →
      ∀ keys, delBatches del keys = delBatches del2 keys) ∧
    (∀ ct n, computeCutoff isoParse now o = .ok ct →
      delBatches del (purgeSelect st o ct (allKeysOf st)) = .returns n →
      purgeCache st del isoParse now o =
        { success := true, error := none, deletedKeys := n,
          totalKeysFound := some (allKeysOf st).length,
          timeFrame := if optTruthy o.specificDate then none
                       else some (o.timeFrame.getD "all"),
          specificDate := if optTruthy o.specificDate then o.specificDate else none,
          appliedFilters := some
            { sessionId := if optTruthy o.sessionId then o.sessionId else none,
              modelName := if optTruthy o.modelName then o.modelName else none,
              metadata := o.metadata } }) ∧
    (∀ ct e, computeCutoff isoParse now o = .ok ct →
      delBatches del (purgeSelect st o ct (allKeysOf st)) = .throws e →
      purgeCache st del isoParse now o =
        { success := false, error := some e, deletedKeys := 0,
          totalKeysFound := none, timeFrame := none, specificDate := none,
          appliedFilters := none }) := by
  refine ⟨?_, ?_, ?_⟩
  · intro hagree keys
    exact delBatchesGo_congr del del2 hagree keys.length keys
  · intro ct n hcut hdel
    simp only [purgeCache, hcut, hdel]
  · intro ct e hcut hdel
    simp only [purgeCache, hcut, hdel]

/-- C6, witness: a concrete purge over a two-key store with a del that never
throws reports the found count and the summed deleted count. -/
theorem purgeCache_batching_witness :
    purgeCache storeTimed (fun b => .returns (b.length : Int)) (fun _ => none) 0 {} =
      { success := true, error := none, deletedKeys := 2,
        totalKeysFound := some 2, timeFrame := some "all", specificDate := none,
        appliedFilters := some { sessionId := none, modelName := none, metadata := none } } :=
  (purgeCache_batching storeTimed (fun b => .returns (b.length : Int))
    (fun b => .returns (b.length : Int)) (fun _ => none) 0 {}).2.1 none 2 rfl rfl

/-- C8, counterexample: `parseTimeFrame` accepts the empty string as well,
returning `null` (no time filter) instead of rejecting it, although the empty
string is neither of the form `<integer><unit>` nor the literal `all` —
refuting the claim that every other string is rejected. -/
theorem parseTimeFrame_empty_counterexample :
    parseTimeFrame "" = .ok none ∧ "" ≠ "all" ∧ timeFrameMatch "" = none :=
  ⟨rfl, by decide, rfl⟩

/-- C8 (amended): `parseTimeFrame` maps `all` and the empty (falsy) string to
no-time-filter; a string matching `^(\d+)([hdwm])$` — and exactly those, as
characterized by the explicit grammar — to its value times the unit
multiplier (hour, day, week, 30-day month, in milliseconds); every other
string throws.  `parseSpecificDate` multiplies an all-digit string by 1000
exactly when its value is below the year-2001 millisecond threshold, and
otherwise defers to ISO-8601 date parsing. -/
theorem parse_time_grammar :
    (parseTimeFrame "all" = .ok none ∧ parseTimeFrame "" = .ok none) ∧
    (∀ s v u, timeFrameMatch s = some (v, u) →
      parseTimeFrame s = .ok (some ((v : Int) * unitMultiplier u))) ∧
    (∀ s, s ≠ "" → s ≠ "all" → timeFrameMatch s = none →
      ∃ e, parseTimeFrame s = .error e) ∧
    (unitMultiplier 'h' = 3600000 ∧ unitMultiplier 'd' = 86400000 ∧
     unitMultiplier 'w' = 604800000 ∧ unitMultiplier 'm' = 2592000000) ∧
    (∀ s, (∃ ds u, s.data = ds ++ [u] ∧ ds ≠ [] ∧ ds.all Char.isDigit = true ∧
        (u = 'h' ∨ u = 'd' ∨ u = 'w' ∨ u = 'm')) ↔ (timeFrameMatch s).isSome = true) ∧
    (∀ iso s, s ≠ "" → s.data.all Char.isDigit = true →
      parseSpecificDate iso s =
        .ok (if ((digitsVal s : Int)) < msThreshold then (digitsVal s : Int) * 1000
             else (digitsVal s : Int))) ∧
    (∀ iso s t, s ≠ "" → s.data.all Char.isDigit = false → iso s = some t →
      parseSpecificDate iso s = .ok t) := by
  refine ⟨⟨rfl, rfl⟩, ?_, ?_, ⟨by decide, by decide, by decide, by decide⟩, ?_, ?_, ?_⟩
  · intro s v u h
    have hne : ¬(s = "" ∨ s = "all") := by
      rintro (rfl | rfl) <;> simp [timeFrameMatch] at h
    unfold parseTimeFrame
    rw [if_neg hne, h]
  · intro s h1 h2 h3
    unfold parseTimeFrame
    rw [if_neg (by rintro (h | h) <;> [exact h1 h; exact h2 h]), h3]
    exact ⟨_, rfl⟩
  · intro s
    unfold timeFrameMatch
    cases hlast : s.data.getLast? with
    | none =>
      rw [List.getLast?_eq_none_iff] at hlast
      dsimp only
      constructor
      · rintro ⟨ds, u, hsplit, -, -, -⟩
        rw [hlast] at hsplit
        simp at hsplit
      · intro h
        exact absurd h (by decide)
    | some u0 =>
      have hne : s.data ≠ [] := by
        intro hnil
        rw [hnil] at hlast
        simp at hlast
      have hu0eq : s.data.getLast hne = u0 := by
        rw [List.getLast?_eq_getLast s.data hne] at hlast
        exact Option.some.inj hlast
      have hsplit0 : s.data.dropLast ++ [u0] = s.data := by
        rw [← hu0eq]
        exact List.dropLast_append_getLast hne
      dsimp only
      constructor
      · rintro ⟨ds, u, hsplit, hds, hdig, hu⟩
        have hu0 : u = u0 := by
          rw [hsplit, List.getLast?_concat] at hlast
          exact Option.some.inj hlast
        have hds0 : ds = s.data.dropLast := by
          rw [hsplit, List.dropLast_concat]
        subst hu0
        rw [if_pos ⟨hu, by rw [← hds0]; exact hds, by rw [← hds0]; exact hdig⟩]
        rfl
      · intro h
        split_ifs at h with hc
        · exact ⟨s.data.dropLast, u0, hsplit0.symm, hc.2.1, hc.2.2, hc.1⟩
        · simp at h
  · intro iso s h1 h2
    unfold parseSpecificDate
    rw [if_neg h1, if_pos h2]
    exact (apply_ite Except.ok _ _ _).symm
  · intro iso s t h1 h2 h3
    unfold parseSpecificDate
    rw [if_neg h1, if_neg (by simp [h2]), h3]

/-- C8, witness: the grammar accepts `24h` as one day in milliseconds, and a
small all-digit date string is interpreted as seconds. -/
theorem parse_time_grammar_witness :
    parseTimeFrame "24h" = .ok (some ((24 : Int) * unitMultiplier 'h')) ∧
    parseSpecificDate (fun _ => none) "1000" =
      .ok (if ((digitsVal "1000" : Int)) < msThreshold then (digitsVal "1000" : Int) * 1000
           else (digitsVal "1000" : Int)) :=
  ⟨parse_time_grammar.2.1 "24h" 24 'h' (by decide),
   parse_time_grammar.2.2.2.2.2.1 (fun _ => none) "1000" (by decide) (by decide)⟩

/-! # Lemmas and claim theorems for persistence TTL -/

theorem lookup_setKV {α : Type} (l : List (String × α)) (k : String) (v : α) :
    (setKV l k v).lookup k = some v := by
  induction l with
  | nil => simp [setKV]
  | cons kv rest ih =>
    obtain ⟨k', v'⟩ := kv
    by_cases h : k' = k
    · subst h
      simp [setKV]
    · simp only [setKV, if_neg h, List.lookup]
      rw [show (k == k') = false from beq_eq_false_iff_ne.mpr (Ne.symm h)]
      exact ih

/-- C9, counterexample: `SessionService.createSession` writes the session
hash with `hSet` and never sets an expiry, so a freshly created
`session:<id>` record has no TTL at all — refuting the claim that Session
records too are re-written with their TTL reset to a nominal value. -/
theorem sessionService_no_ttl_counterexample :
    (sessionServiceCreateSession ⟨[]⟩ "s1" "openai" {} 1700000000000).entries.lookup
        (sessionPrefix ++ "s1") =
      some ⟨.hashVal [("sessionId", "s1"), ("modelName", "openai"), ("assistantId", ""),
        ("threadId", ""), ("conversationId", ""), ("instructions", ""),
        ("createdAt", "1700000000000")], none⟩ :=
  rfl

/-- C9 (amended): every wizard-route mutation of a persisted Conversation —
creation, user-message append, and turn processing — is a full re-write of
the `wizard:<id>` record with its TTL reset to the nominal 3600 seconds;
Session hash records, by contrast, are written through `hSet` and a freshly
created `session:<id>` record carries no TTL. -/
theorem wizard_conversation_ttl (st : KVStore) (sessionId : String) :
    (∀ userPrompt tok,
      (wizardCreateSessionRoute st sessionId userPrompt tok).entries.lookup
        ("wizard:" ++ sessionId) =
        some ⟨.convVal (createSession userPrompt tok), some 3600⟩) ∧
    (∀ conv ttl msg, msg ≠ "" →
      st.entries.lookup ("wizard:" ++ sessionId) = some ⟨StoredVal.convVal conv, ttl⟩ →
      (wizardMessageRoute st sessionId msg).entries.lookup ("wizard:" ++ sessionId) =
        some ⟨.convVal (conv.pushMsg (userMsg msg)), some 3600⟩) ∧
    (∀ conv ttl env,
      st.entries.lookup ("wizard:" ++ sessionId) = some ⟨StoredVal.convVal conv, ttl⟩ →
      lastMessageIsUser conv = true →
      (wizardStreamRoute st sessionId env).entries.lookup ("wizard:" ++ sessionId) =
        some ⟨.convVal (sendMessageStream env none conv).conv, some 3600⟩) ∧
    (∀ (st' : KVStore) modelName d now,
      st'.entries.lookup (sessionPrefix ++ sessionId) = none →
      ∃ fields, (sessionServiceCreateSession st' sessionId modelName d now).entries.lookup
        (sessionPrefix ++ sessionId) = some ⟨.hashVal fields, none⟩) := by
  refine ⟨?_, ?_, ?_, ?_⟩
  · intro userPrompt tok
    exact lookup_setKV st.entries _ _
  · intro conv ttl msg hmsg hlookup
    unfold wizardMessageRoute
    rw [if_neg hmsg, hlookup]
    exact lookup_setKV st.entries _ _
  · intro conv ttl env hlookup hlast
    unfold wizardStreamRoute
    rw [hlookup]
    dsimp only
    rw [if_pos hlast]
    exact lookup_setKV st.entries _ _
  · intro st' modelName d now hfresh
    unfold sessionServiceCreateSession kvHSet
    rw [hfresh]
    exact ⟨_, lookup_setKV st'.entries _ _⟩

/-- C9, witness: appending a message to a freshly created wizard session
re-writes the whole conversation with a 3600-second TTL, while a fresh
session hash is stored with no TTL. -/
theorem wizard_conversation_ttl_witness :
    (wizardMessageRoute wizStore1 "s1" "hi").entries.lookup ("wizard:" ++ "s1") =
      some ⟨.convVal ((createSession "make a leia" JVal.null).pushMsg (userMsg "hi")),
        some 3600⟩ ∧
    (∃ fields, (sessionServiceCreateSession ⟨[]⟩ "s1" "openai" {} 0).entries.lookup
      (sessionPrefix ++ "s1") = some ⟨.hashVal fields, none⟩) :=
  ⟨(wizard_conversation_ttl wizStore1 "s1").2.1 (createSession "make a leia" JVal.null)
      (some 3600) "hi" (by decide) rfl,
   (wizard_conversation_ttl ⟨[]⟩ "s1").2.2.2 ⟨[]⟩ "openai" {} 0 rfl⟩

end LeiaRunner
